import Mathlib

/-!
Verification of the artifact version discovery and selection engine of a
GitOps delivery controller: semantic-version selection (`getLatestVersion`),
classic Helm chart repository index resolution, the digest image-selection
strategy, selector construction, and warehouse path filters.

Pure Go functions are embedded as Lean functions; network interactions are
embedded as explicit snapshots of upstream state (a tag listing outcome and
a manifest-fetch function) passed to the selection functions.
-/

set_option maxHeartbeats 1000000

/-! ## Semantic versions (support for getLatestVersion) -/

/-- A parsed semantic version: major, minor and patch components. -/
structure SemVer where
  major : Nat
  minor : Nat
  patch : Nat
deriving DecidableEq, Repr

/-- Precedence order on semantic versions: lexicographic on
(major, minor, patch). -/
def SemVer.le (a b : SemVer) : Prop :=
  a.major < b.major ∨
    (a.major = b.major ∧
      (a.minor < b.minor ∨ (a.minor = b.minor ∧ a.patch ≤ b.patch)))

instance (a b : SemVer) : Decidable (SemVer.le a b) := by
  unfold SemVer.le; exact inferInstance

theorem SemVer.le_refl (a : SemVer) : SemVer.le a a := by
  unfold SemVer.le; omega

theorem SemVer.le_trans {a b c : SemVer} (h1 : SemVer.le a b)
    (h2 : SemVer.le b c) : SemVer.le a c := by
  unfold SemVer.le at *; omega

theorem SemVer.le_total (a b : SemVer) : SemVer.le a b ∨ SemVer.le b a := by
  unfold SemVer.le; omega

/-- Split a character list into groups at each '.' character. -/
def splitDots : List Char → List (List Char)
  | [] => [[]]
  | c :: rest =>
    match splitDots rest with
    | [] => if c = '.' then [[], []] else [[c]]
    | g :: gs => if c = '.' then [] :: g :: gs else (c :: g) :: gs

/-- Numeric value of a decimal digit character, if it is one. -/
def digitVal (c : Char) : Option Nat :=
  if '0' ≤ c ∧ c ≤ '9' then some (c.toNat - '0'.toNat) else none

/-- Parse a nonempty all-digit character list as a natural number. -/
def digitsToNat : List Char → Option Nat
  | [] => none
  | cs => go cs 0
where
  go : List Char → Nat → Option Nat
    | [], acc => some acc
    | c :: rest, acc =>
      match digitVal c with
      | none => none
      | some d => go rest (acc * 10 + d)

/-- Modelled from the spec: the semantic-version parser (applied by
`getLatestVersion`, whose implementation is absent from the excerpt) accepts
a dotted numeric triple `major.minor.patch`; anything else fails to parse. -/
def parseSemVer (s : String) : Option SemVer :=
  match splitDots s.data with
  | [a, b, c] =>
    match digitsToNat a, digitsToNat b, digitsToNat c with
    | some ma, some mi, some pa => some ⟨ma, mi, pa⟩
    | _, _, _ => none
  | _ => none

/-- A semantic-version range constraint. Modelled from the spec: the
constraint grammar of the absent implementation is represented by caret
ranges `^major.minor.patch` (at least the given version and strictly below
the next major release). -/
inductive SvConstraint where
  | caret (v : SemVer)
deriving DecidableEq, Repr

/-- Modelled from the spec: parse a semantic-version range expression; a
caret followed by a numeric triple parses, anything else is malformed. -/
def parseConstraint (s : String) : Option SvConstraint :=
  match s.data with
  | '^' :: rest =>
    match splitDots rest with
    | [a, b, c] =>
      match digitsToNat a, digitsToNat b, digitsToNat c with
      | some ma, some mi, some pa => some (.caret ⟨ma, mi, pa⟩)
      | _, _, _ => none
    | _ => none
  | _ => none

/-- Does a version satisfy a range constraint? -/
def svSatisfies (v : SemVer) : SvConstraint → Bool
  | .caret c =>
    decide (SemVer.le c v) && decide (¬ SemVer.le ⟨c.major + 1, 0, 0⟩ v)

/-- Does a version satisfy an optional constraint (none = unconstrained)? -/
def svSatisfiesOpt (v : SemVer) : Option SvConstraint → Bool
  | none => true
  | some c => svSatisfies v c

/-- Parse every version string, pairing each with its parsed form; the
first string that fails to parse aborts the whole call with an error
naming it. -/
def parseVersions : List String → Except String (List (String × SemVer))
  | [] => .ok []
  | v :: vs =>
    match parseSemVer v with
    | none => .error ("error parsing version " ++ v)
    | some sv =>
      match parseVersions vs with
      | .error e => .error e
      | .ok rest => .ok ((v, sv) :: rest)

/-- Insert a (string, version) pair into a descending-ordered list. -/
def insertDesc (x : String × SemVer) :
    List (String × SemVer) → List (String × SemVer)
  | [] => [x]
  | y :: ys =>
    if SemVer.le y.2 x.2 then x :: y :: ys else y :: insertDesc x ys

/-- Sort (string, version) pairs descending by version precedence. -/
def sortDesc : List (String × SemVer) → List (String × SemVer)
  | [] => []
  | x :: xs => insertDesc x (sortDesc xs)

/-- Outcome of parsing the constraint argument: empty means unconstrained,
a malformed non-empty constraint is an error. -/
def constraintOutcome (constraint : String) :
    Except String (Option SvConstraint) :=
  if constraint = "" then .ok none
  else
    match parseConstraint constraint with
    | none => .error ("error parsing constraint " ++ constraint)
    | some c => .ok (some c)

/-- Modelled from the spec: `getLatestVersion(versions, constraint)` — the
implementation is absent from the excerpt (only its tests appear). Parses
every version string (fatal ParseError naming the first offender), parses
the non-empty constraint (ParseError if malformed), sorts descending, and
returns the first version satisfying the constraint — or the empty string,
with no error, when nothing satisfies it. -/
def getLatestVersion (versions : List String) (constraint : String) :
    Except String String :=
  match parseVersions versions with
  | .error e => .error e
  | .ok parsed =>
    match constraintOutcome constraint with
    | .error e => .error e
    | .ok copt =>
      match (sortDesc parsed).find? (fun p => svSatisfiesOpt p.2 copt) with
      | some p => .ok p.1
      | none => .ok ""

/-! ## Lemmas about sorting and searching version lists -/

theorem mem_insertDesc {x a : String × SemVer} :
    ∀ {l : List (String × SemVer)}, a ∈ insertDesc x l ↔ a = x ∨ a ∈ l
  | [] => by simp [insertDesc]
  | y :: ys => by
    unfold insertDesc
    by_cases h : SemVer.le y.2 x.2
    · simp [h]
    · simp [h, @mem_insertDesc x a ys]
      tauto

theorem mem_sortDesc {a : String × SemVer} :
    ∀ {l : List (String × SemVer)}, a ∈ sortDesc l ↔ a ∈ l
  | [] => by simp [sortDesc]
  | x :: xs => by
    unfold sortDesc
    rw [mem_insertDesc]
    simp [@mem_sortDesc a xs]

theorem pairwise_insertDesc {x : String × SemVer} :
    ∀ {l : List (String × SemVer)},
      l.Pairwise (fun a b => SemVer.le b.2 a.2) →
      (insertDesc x l).Pairwise (fun a b => SemVer.le b.2 a.2)
  | [], _ => by simp [insertDesc]
  | y :: ys, h => by
    rcases List.pairwise_cons.mp h with ⟨hy, hys⟩
    unfold insertDesc
    by_cases hle : SemVer.le y.2 x.2
    · simp only [if_pos hle]
      refine List.pairwise_cons.mpr ⟨?_, h⟩
      intro z hz
      rcases List.mem_cons.mp hz with rfl | hz
      · exact hle
      · exact SemVer.le_trans (hy z hz) hle
    · simp only [if_neg hle]
      refine List.pairwise_cons.mpr ⟨?_, pairwise_insertDesc hys⟩
      intro z hz
      rcases mem_insertDesc.mp hz with rfl | hz
      · exact (SemVer.le_total _ _).resolve_right hle
      · exact hy z hz

theorem pairwise_sortDesc :
    ∀ (l : List (String × SemVer)),
      (sortDesc l).Pairwise (fun a b => SemVer.le b.2 a.2)
  | [] => by simp [sortDesc]
  | x :: xs => pairwise_insertDesc (pairwise_sortDesc xs)

theorem find?_max_of_pairwise {p : String × SemVer → Bool} :
    ∀ {l : List (String × SemVer)},
      l.Pairwise (fun a b => SemVer.le b.2 a.2) →
      ∀ {x}, l.find? p = some x → ∀ y ∈ l, p y = true → SemVer.le y.2 x.2
  | [], _, _, hf => by simp at hf
  | z :: t, h, x, hf => by
    rcases List.pairwise_cons.mp h with ⟨hz, ht⟩
    intro y hy hpy
    by_cases hpz : p z
    · rw [List.find?_cons_of_pos _ hpz] at hf
      cases hf
      rcases List.mem_cons.mp hy with rfl | hy
      · exact SemVer.le_refl _
      · exact hz y hy
    · rw [List.find?_cons_of_neg _ hpz] at hf
      rcases List.mem_cons.mp hy with rfl | hy
      · exact absurd hpy hpz
      · exact find?_max_of_pairwise ht hf y hy hpy

theorem parseVersions_isOk_iff :
    ∀ (vs : List String),
      (∃ ps, parseVersions vs = .ok ps) ↔
        ∀ v ∈ vs, (parseSemVer v).isSome
  | [] => by simp [parseVersions]
  | v :: vs => by
    unfold parseVersions
    cases hpv : parseSemVer v with
    | none => simp [hpv]
    | some sv =>
      cases hr : parseVersions vs with
      | error e =>
        have : ¬ ∀ w ∈ vs, (parseSemVer w).isSome := by
          intro hall
          rcases (parseVersions_isOk_iff vs).mpr hall with ⟨ps, hps⟩
          rw [hr] at hps; cases hps
        simp only [hpv]
        constructor
        · rintro ⟨ps, hps⟩; cases hps
        · intro hall
          exact absurd (fun w hw => hall w (List.mem_cons_of_mem _ hw)) this
      | ok rest =>
        have hall := (parseVersions_isOk_iff vs).mp ⟨rest, hr⟩
        simp only [hpv]
        constructor
        · intro _ w hw
          rcases List.mem_cons.mp hw with rfl | hw
          · simp [hpv]
          · exact hall w hw
        · intro _; exact ⟨(v, sv) :: rest, rfl⟩

theorem parseVersions_mem :
    ∀ {vs : List String} {ps : List (String × SemVer)},
      parseVersions vs = .ok ps →
      ∀ (v : String) (sv : SemVer),
        ((v, sv) ∈ ps ↔ v ∈ vs ∧ parseSemVer v = some sv)
  | [], ps, h => by
    unfold parseVersions at h
    cases h
    simp
  | w :: ws, ps, h => by
    unfold parseVersions at h
    cases hw : parseSemVer w with
    | none => rw [hw] at h; cases h
    | some sw =>
      rw [hw] at h
      cases hr : parseVersions ws with
      | error e => rw [hr] at h; cases h
      | ok rest =>
        rw [hr] at h
        cases h
        intro v sv
        constructor
        · intro hmem
          rcases List.mem_cons.mp hmem with heq | hmem
          · rcases Prod.mk.injEq .. ▸ heq with ⟨rfl, rfl⟩
            exact ⟨List.mem_cons_self _ _, hw⟩
          · rcases (parseVersions_mem hr v sv).mp hmem with ⟨hv, hp⟩
            exact ⟨List.mem_cons_of_mem _ hv, hp⟩
        · rintro ⟨hv, hp⟩
          rcases List.mem_cons.mp hv with rfl | hv
          · rw [hw] at hp
            cases hp
            exact List.mem_cons_self _ _
          · exact List.mem_cons_of_mem _
              ((parseVersions_mem hr v sv).mpr ⟨hv, hp⟩)

theorem parseVersions_error :
    ∀ {vs : List String} {e : String},
      parseVersions vs = .error e →
      ∃ v ∈ vs, parseSemVer v = none ∧ e = "error parsing version " ++ v
  | [], e, h => by cases h
  | w :: ws, e, h => by
    unfold parseVersions at h
    cases hw : parseSemVer w with
    | none =>
      rw [hw] at h
      cases h
      exact ⟨w, List.mem_cons_self _ _, hw, rfl⟩
    | some sw =>
      rw [hw] at h
      cases hr : parseVersions ws with
      | error e' =>
        rw [hr] at h
        cases h
        rcases parseVersions_error hr with ⟨v, hv, hp, he⟩
        exact ⟨v, List.mem_cons_of_mem _ hv, hp, he⟩
      | ok rest => rw [hr] at h; cases h

theorem getLatestVersion_eq_find {versions : List String}
    {constraint : String} {parsed : List (String × SemVer)}
    {copt : Option SvConstraint}
    (hp : parseVersions versions = .ok parsed)
    (hc : constraintOutcome constraint = .ok copt) :
    getLatestVersion versions constraint =
      match (sortDesc parsed).find? (fun p => svSatisfiesOpt p.2 copt) with
      | some p => .ok p.1
      | none => .ok "" := by
  unfold getLatestVersion
  rw [hp, hc]

theorem getLatestVersion_of_parse_error {versions : List String}
    {constraint e : String} (hp : parseVersions versions = .error e) :
    getLatestVersion versions constraint = .error e := by
  unfold getLatestVersion
  rw [hp]

theorem getLatestVersion_of_constraint_error {versions : List String}
    {constraint e : String} {parsed : List (String × SemVer)}
    (hp : parseVersions versions = .ok parsed)
    (hc : constraintOutcome constraint = .error e) :
    getLatestVersion versions constraint = .error e := by
  unfold getLatestVersion
  rw [hp, hc]

theorem constraintOutcome_error {c e : String}
    (h : constraintOutcome c = .error e) :
    c ≠ "" ∧ parseConstraint c = none ∧
      e = "error parsing constraint " ++ c := by
  unfold constraintOutcome at h
  by_cases hc : c = ""
  · rw [if_pos hc] at h; cases h
  · rw [if_neg hc] at h
    rcases Option.eq_none_or_eq_some (parseConstraint c) with hpc | ⟨k, hpc⟩
    · rw [hpc] at h
      cases h
      exact ⟨hc, hpc, rfl⟩
    · rw [hpc] at h
      cases h

theorem constraintOutcome_error_of {c : String} (hne : c ≠ "")
    (hp : parseConstraint c = none) :
    constraintOutcome c = .error ("error parsing constraint " ++ c) := by
  unfold constraintOutcome
  rw [if_neg hne, hp]

/-- A version string satisfies an optional constraint: it parses and its
parsed form satisfies the constraint (or there is no constraint). -/
def satOpt (copt : Option SvConstraint) (v : String) : Prop :=
  ∃ sv, parseSemVer v = some sv ∧ svSatisfiesOpt sv copt = true

/-- Version-precedence comparison lifted to version strings. -/
def semLeStr (v w : String) : Prop :=
  ∃ sa sb, parseSemVer v = some sa ∧ parseSemVer w = some sb ∧
    SemVer.le sa sb

/-- C1: for every list of version strings that all parse as semantic
versions and a constraint argument that is empty or well formed,
`getLatestVersion` succeeds and returns either the empty string (when no
version satisfies the constraint) or a listed version satisfying the
constraint that is highest among all satisfying versions; in particular,
for ["2.0.0","1.0.0","1.1.0"] it returns "1.1.0" under "^1.0.0", "2.0.0"
under no constraint, and "" with no error under "^3.0.0". -/
theorem getLatestVersion_picks_highest :
    (∀ (versions : List String) (constraint : String)
        (copt : Option SvConstraint),
      (∀ v ∈ versions, (parseSemVer v).isSome) →
      constraintOutcome constraint = .ok copt →
      ∃ r, getLatestVersion versions constraint = .ok r ∧
        ((r = "" ∧ ∀ v ∈ versions, ¬ satOpt copt v) ∨
         (r ∈ versions ∧ satOpt copt r ∧
           ∀ v ∈ versions, satOpt copt v → semLeStr v r))) ∧
    getLatestVersion ["2.0.0", "1.0.0", "1.1.0"] "^1.0.0" = .ok "1.1.0" ∧
    getLatestVersion ["2.0.0", "1.0.0", "1.1.0"] "" = .ok "2.0.0" ∧
    getLatestVersion ["2.0.0", "1.0.0", "1.1.0"] "^3.0.0" = .ok "" := by
  refine ⟨?_, rfl, rfl, rfl⟩
  intro versions constraint copt hv hc
  obtain ⟨parsed, hp⟩ := (parseVersions_isOk_iff versions).mpr hv
  rw [getLatestVersion_eq_find hp hc]
  cases hf : (sortDesc parsed).find? (fun p => svSatisfiesOpt p.2 copt) with
  | none =>
    refine ⟨"", rfl, Or.inl ⟨rfl, ?_⟩⟩
    rintro v hvmem ⟨sv, hpv, hsat⟩
    have hpair : (v, sv) ∈ sortDesc parsed :=
      mem_sortDesc.mpr ((parseVersions_mem hp v sv).mpr ⟨hvmem, hpv⟩)
    exact List.find?_eq_none.mp hf _ hpair hsat
  | some pr =>
    have hmem : pr ∈ sortDesc parsed := List.mem_of_find?_eq_some hf
    have hpr : pr.1 ∈ versions ∧ parseSemVer pr.1 = some pr.2 :=
      (parseVersions_mem hp pr.1 pr.2).mp (mem_sortDesc.mp hmem)
    have hsat : svSatisfiesOpt pr.2 copt = true := by
      have h := List.find?_some hf
      simpa using h
    refine ⟨pr.1, rfl, Or.inr ⟨hpr.1, ⟨pr.2, hpr.2, hsat⟩, ?_⟩⟩
    rintro v hvmem ⟨sv, hpv, hsv⟩
    have hpair : (v, sv) ∈ sortDesc parsed :=
      mem_sortDesc.mpr ((parseVersions_mem hp v sv).mpr ⟨hvmem, hpv⟩)
    have hle := find?_max_of_pairwise (pairwise_sortDesc parsed) hf
      (v, sv) hpair hsv
    exact ⟨sv, pr.2, hpv, hpr.2, hle⟩

/-- C1 witness: the general statement applied to the concrete list
["2.0.0","1.0.0","1.1.0"] with constraint "^1.0.0". -/
theorem getLatestVersion_picks_highest_witness :
    (∀ v ∈ ["2.0.0", "1.0.0", "1.1.0"], (parseSemVer v).isSome) ∧
    constraintOutcome "^1.0.0" = .ok (some (.caret ⟨1, 0, 0⟩)) ∧
    ∃ r, getLatestVersion ["2.0.0", "1.0.0", "1.1.0"] "^1.0.0" = .ok r ∧
      ((r = "" ∧ ∀ v ∈ ["2.0.0", "1.0.0", "1.1.0"],
          ¬ satOpt (some (.caret ⟨1, 0, 0⟩)) v) ∨
       (r ∈ ["2.0.0", "1.0.0", "1.1.0"] ∧
         satOpt (some (.caret ⟨1, 0, 0⟩)) r ∧
         ∀ v ∈ ["2.0.0", "1.0.0", "1.1.0"],
           satOpt (some (.caret ⟨1, 0, 0⟩)) v → semLeStr v r)) :=
  ⟨by decide, rfl,
    getLatestVersion_picks_highest.1 ["2.0.0", "1.0.0", "1.1.0"] "^1.0.0"
      (some (.caret ⟨1, 0, 0⟩)) (by decide) rfl⟩

/-- C3: `getLatestVersion` errors exactly when some input string fails to
parse as a semantic version or the non-empty constraint fails to parse;
the error names the offending string (version or constraint). A
well-formed constraint matching nothing is never an error. -/
theorem getLatestVersion_error_characterization :
    ∀ (versions : List String) (constraint : String),
      ((∃ e, getLatestVersion versions constraint = .error e) ↔
        ((∃ v ∈ versions, parseSemVer v = none) ∨
         (constraint ≠ "" ∧ parseConstraint constraint = none))) ∧
      (∀ e, getLatestVersion versions constraint = .error e →
        (∃ v ∈ versions, parseSemVer v = none ∧
          e = "error parsing version " ++ v) ∨
        ((∀ v ∈ versions, (parseSemVer v).isSome) ∧ constraint ≠ "" ∧
          parseConstraint constraint = none ∧
          e = "error parsing constraint " ++ constraint)) := by
  intro versions constraint
  have hmain : ∀ e, getLatestVersion versions constraint = .error e →
      (∃ v ∈ versions, parseSemVer v = none ∧
        e = "error parsing version " ++ v) ∨
      ((∀ v ∈ versions, (parseSemVer v).isSome) ∧ constraint ≠ "" ∧
        parseConstraint constraint = none ∧
        e = "error parsing constraint " ++ constraint) := by
    intro e he
    cases hp : parseVersions versions with
    | error e' =>
      rw [getLatestVersion_of_parse_error hp] at he
      cases he
      rcases parseVersions_error hp with ⟨v, hv, hpn, heq⟩
      exact Or.inl ⟨v, hv, hpn, heq⟩
    | ok parsed =>
      have hall := (parseVersions_isOk_iff versions).mp ⟨parsed, hp⟩
      cases hc : constraintOutcome constraint with
      | error e' =>
        rw [getLatestVersion_of_constraint_error hp hc] at he
        cases he
        rcases constraintOutcome_error hc with ⟨hne, hpc, heq⟩
        exact Or.inr ⟨hall, hne, hpc, heq⟩
      | ok copt =>
        rw [getLatestVersion_eq_find hp hc] at he
        cases hf : (sortDesc parsed).find?
            (fun p => svSatisfiesOpt p.2 copt) with
        | some pr => rw [hf] at he; cases he
        | none => rw [hf] at he; cases he
  refine ⟨⟨?_, ?_⟩, hmain⟩
  · rintro ⟨e, he⟩
    rcases hmain e he with ⟨v, hv, hpn, _⟩ | ⟨_, hne, hpc, _⟩
    · exact Or.inl ⟨v, hv, hpn⟩
    · exact Or.inr ⟨hne, hpc⟩
  · intro h
    cases hp : parseVersions versions with
    | error e => exact ⟨e, getLatestVersion_of_parse_error hp⟩
    | ok parsed =>
      have hall := (parseVersions_isOk_iff versions).mp ⟨parsed, hp⟩
      rcases h with ⟨v, hv, hpn⟩ | ⟨hne, hpc⟩
      · have := hall v hv
        rw [hpn] at this
        cases this
      · exact ⟨"error parsing constraint " ++ constraint,
          getLatestVersion_of_constraint_error hp
            (constraintOutcome_error_of hne hpc)⟩

/-- C3 witness: a non-parsing version string and a malformed constraint
each produce an error on concrete inputs. -/
theorem getLatestVersion_error_characterization_witness :
    (∃ e, getLatestVersion ["not-semantic"] "" = .error e) ∧
    (∃ e, getLatestVersion ["1.0.0"] "invalid" = .error e) :=
  ⟨(getLatestVersion_error_characterization ["not-semantic"] "").1.mpr
      (Or.inl ⟨"not-semantic", by decide, by decide⟩),
    (getLatestVersion_error_characterization ["1.0.0"] "invalid").1.mpr
      (Or.inr ⟨by decide, by decide⟩)⟩

/-! ## Substring search (for reasoning about error messages) -/

/-- Does the haystack start with the needle? -/
def startsWithL : List Char → List Char → Bool
  | _, [] => true
  | [], _ :: _ => false
  | c :: cs, n :: ns => if c = n then startsWithL cs ns else false

/-- Does the needle occur contiguously anywhere in the haystack? -/
def containsSub : List Char → List Char → Bool
  | [], needle => startsWithL [] needle
  | c :: t, needle => startsWithL (c :: t) needle || containsSub t needle

/-- Substring occurrence lifted to strings. -/
def strContains (hay needle : String) : Bool :=
  containsSub hay.data needle.data

theorem startsWithL_nil : ∀ (l : List Char), startsWithL l [] = true
  | [] => rfl
  | _ :: _ => rfl

theorem startsWithL_append : ∀ (n r : List Char), startsWithL (n ++ r) n = true
  | [], r => startsWithL_nil r
  | c :: cs, r => by
    simp only [List.cons_append, startsWithL, if_pos rfl]
    exact startsWithL_append cs r

theorem startsWithL_mono : ∀ {l n : List Char} (m : List Char),
    startsWithL l n = true → startsWithL (l ++ m) n = true
  | l, [], m, _ => startsWithL_nil (l ++ m)
  | [], _ :: _, _, h => by cases h
  | c :: cs, n :: ns, m, h => by
    simp only [startsWithL] at h
    by_cases hc : c = n
    · rw [if_pos hc] at h
      simp only [List.cons_append, startsWithL, if_pos hc]
      exact startsWithL_mono m h
    · rw [if_neg hc] at h
      cases h

theorem containsSub_of_startsWithL {l n : List Char}
    (h : startsWithL l n = true) : containsSub l n = true := by
  cases l with
  | nil => exact h
  | cons c t => simp [containsSub, h]

theorem containsSub_mono_right : ∀ {l : List Char} (m : List Char)
    {n : List Char}, containsSub l n = true → containsSub (l ++ m) n = true
  | [], m, n, h => containsSub_of_startsWithL (startsWithL_mono m h)
  | c :: t, m, n, h => by
    simp only [containsSub, Bool.or_eq_true] at h
    rcases h with h | h
    · exact containsSub_of_startsWithL (startsWithL_mono m h)
    · simp only [List.cons_append, containsSub, Bool.or_eq_true]
      exact Or.inr (containsSub_mono_right m h)

theorem containsSub_append_left : ∀ (l : List Char) {h n : List Char},
    containsSub h n = true → containsSub (l ++ h) n = true
  | [], _, _, hc => hc
  | c :: t, h, n, hc => by
    simp only [List.cons_append, containsSub, Bool.or_eq_true]
    exact Or.inr (containsSub_append_left t hc)

theorem strData_append (a b : String) : (a ++ b).data = a.data ++ b.data :=
  rfl

theorem strContains_lit_append {lit n : String} (s : String)
    (h : containsSub lit.data n.data = true) :
    strContains (lit ++ s) n = true := by
  unfold strContains
  rw [strData_append]
  exact containsSub_mono_right s.data h

/-! ## Image selection -/

/-- A parsed platform constraint: OS, architecture, optional variant. -/
structure PlatformCon where
  os : String
  arch : String
  variant : Option String
deriving DecidableEq, Repr

/-- Result of a successful selection: tag, resolved digest, and an
optional creation time (used only by newest-build ordering). -/
structure Image where
  tag : String
  digest : String
  createdAt : Option Nat
deriving DecidableEq, Repr

/-- A snapshot of the upstream registry state seen through the repository
client: the outcome of the tag-listing call and, for every tag and
platform constraint, the outcome of the manifest fetch. -/
structure RegistrySnapshot where
  tags : Except String (List String)
  imageByTag : String → Option PlatformCon → Except String (Option Image)

/-- Configuration bound by a digest-strategy selector. -/
structure DigestSelectorCfg where
  constraint : String
  platform : Option PlatformCon

/-- newDigestSelector: constructing a digest-strategy selector fails when
the constraint is empty, otherwise binds the constraint and platform. -/
def newDigestSelector (constraint : String)
    (platform : Option PlatformCon) : Except String DigestSelectorCfg :=
  if constraint = "" then
    .error "digest selection strategy requires a constraint"
  else
    .ok ⟨constraint, platform⟩

/-- The tag walk of digestSelector.Select: skip tags different from the
constraint; on the matching tag fetch the image (platform-filtered),
propagating a fetch error, and returning no image when the platform does
not match. -/
def digestSelectLoop (reg : RegistrySnapshot) (d : DigestSelectorCfg) :
    List String → Except String (Option Image)
  | [] => .ok none
  | tag :: rest =>
    if tag ≠ d.constraint then digestSelectLoop reg d rest
    else
      match reg.imageByTag tag d.platform with
      | .error e =>
        .error ("error retrieving image with tag " ++ tag ++ ": " ++ e)
      | .ok none => .ok none
      | .ok (some image) => .ok (some image)

/-- digestSelector.Select: list tags (wrapping a listing error), return no
image for an empty listing, else walk the tags. -/
def digestSelect (reg : RegistrySnapshot) (d : DigestSelectorCfg) :
    Except String (Option Image) :=
  match reg.tags with
  | .error e => .error ("error listing tags: " ++ e)
  | .ok tags =>
    if tags.isEmpty then .ok none
    else digestSelectLoop reg d tags

theorem digestSelectLoop_not_mem {reg : RegistrySnapshot}
    {d : DigestSelectorCfg} :
    ∀ {ts : List String}, d.constraint ∉ ts →
      digestSelectLoop reg d ts = .ok none
  | [], _ => rfl
  | t :: ts, h => by
    have hne : t ≠ d.constraint := fun he => h (he ▸ List.mem_cons_self _ _)
    unfold digestSelectLoop
    rw [if_pos hne]
    exact digestSelectLoop_not_mem (fun hm => h (List.mem_cons_of_mem _ hm))

theorem digestSelectLoop_mem {reg : RegistrySnapshot}
    {d : DigestSelectorCfg} :
    ∀ {ts : List String}, d.constraint ∈ ts →
      digestSelectLoop reg d ts =
        match reg.imageByTag d.constraint d.platform with
        | .error e => .error ("error retrieving image with tag " ++
            d.constraint ++ ": " ++ e)
        | .ok none => .ok none
        | .ok (some image) => .ok (some image)
  | [], h => absurd h (List.not_mem_nil _)
  | t :: ts, h => by
    by_cases he : t = d.constraint
    · subst he
      unfold digestSelectLoop
      rw [if_neg (fun hne => hne rfl)]
    · unfold digestSelectLoop
      rw [if_pos he]
      exact digestSelectLoop_mem
        ((List.mem_cons.mp h).resolve_left (fun hh => he hh.symm))

theorem digestSelectLoop_error {reg : RegistrySnapshot}
    {d : DigestSelectorCfg} :
    ∀ {ts : List String} {e : String},
      digestSelectLoop reg d ts = .error e →
      d.constraint ∈ ts ∧
        ∃ e', reg.imageByTag d.constraint d.platform = .error e'
  | [], e, h => by cases h
  | t :: ts, e, h => by
    unfold digestSelectLoop at h
    by_cases he : t = d.constraint
    · subst he
      rw [if_neg (fun hne => hne rfl)] at h
      cases hi : reg.imageByTag d.constraint d.platform with
      | error e' => exact ⟨List.mem_cons_self _ _, e', rfl⟩
      | ok oimg =>
        rw [hi] at h
        cases oimg with
        | none => cases h
        | some img => cases h
    · rw [if_pos he] at h
      rcases digestSelectLoop_error h with ⟨hm, he'⟩
      exact ⟨List.mem_cons_of_mem _ hm, he'⟩

theorem digestSelect_ok_tags {reg : RegistrySnapshot}
    {d : DigestSelectorCfg} {ts : List String}
    (hts : reg.tags = .ok ts) :
    digestSelect reg d =
      if ts.isEmpty then .ok none else digestSelectLoop reg d ts := by
  unfold digestSelect
  rw [hts]

/-- C2: the digest strategy returns the image fetched for the listed tag
exactly equal to the configured constraint; when no listed tag equals the
constraint, or the matched tag's image does not satisfy the platform
constraint, it returns no image and no error; an error occurs only when
the tag listing or the manifest fetch failed. -/
theorem digestSelect_characterization :
    ∀ (reg : RegistrySnapshot) (d : DigestSelectorCfg),
      (∀ ts, reg.tags = .ok ts → d.constraint ∉ ts →
        digestSelect reg d = .ok none) ∧
      (∀ ts img, reg.tags = .ok ts → d.constraint ∈ ts →
        reg.imageByTag d.constraint d.platform = .ok (some img) →
        digestSelect reg d = .ok (some img)) ∧
      (∀ ts, reg.tags = .ok ts → d.constraint ∈ ts →
        reg.imageByTag d.constraint d.platform = .ok none →
        digestSelect reg d = .ok none) ∧
      (∀ e, digestSelect reg d = .error e →
        (∃ e', reg.tags = .error e') ∨
        (∃ ts e', reg.tags = .ok ts ∧ d.constraint ∈ ts ∧
          reg.imageByTag d.constraint d.platform = .error e')) := by
  intro reg d
  refine ⟨?_, ?_, ?_, ?_⟩
  · intro ts hts hnm
    rw [digestSelect_ok_tags hts]
    by_cases h : ts.isEmpty
    · rw [if_pos h]
    · rw [if_neg h]
      exact digestSelectLoop_not_mem hnm
  · intro ts img hts hm himg
    have hne : ¬ ts.isEmpty := by
      cases ts with
      | nil => exact absurd hm (List.not_mem_nil _)
      | cons a l => simp
    rw [digestSelect_ok_tags hts, if_neg hne, digestSelectLoop_mem hm, himg]
  · intro ts hts hm himg
    have hne : ¬ ts.isEmpty := by
      cases ts with
      | nil => exact absurd hm (List.not_mem_nil _)
      | cons a l => simp
    rw [digestSelect_ok_tags hts, if_neg hne, digestSelectLoop_mem hm, himg]
  · intro e he
    cases hts : reg.tags with
    | error e' => exact Or.inl ⟨e', rfl⟩
    | ok ts =>
      rw [digestSelect_ok_tags hts] at he
      by_cases h : ts.isEmpty
      · rw [if_pos h] at he
        cases he
      · rw [if_neg h] at he
        rcases digestSelectLoop_error he with ⟨hm, e', hi⟩
        exact Or.inr ⟨ts, e', rfl, hm, hi⟩

/-- C2 witness: on a concrete snapshot listing the constraint tag with a
fetchable image, Select returns exactly that image. -/
theorem digestSelect_characterization_witness :
    digestSelect
      { tags := Except.ok ["fake-tag", "other-tag"],
        imageByTag := fun _ _ =>
          Except.ok (some ⟨"fake-tag", "sha256:abc", none⟩) }
      ⟨"fake-tag", none⟩ =
      .ok (some ⟨"fake-tag", "sha256:abc", none⟩) :=
  (digestSelect_characterization
      { tags := Except.ok ["fake-tag", "other-tag"],
        imageByTag := fun _ _ =>
          Except.ok (some ⟨"fake-tag", "sha256:abc", none⟩) }
      ⟨"fake-tag", none⟩).2.1
    ["fake-tag", "other-tag"] ⟨"fake-tag", "sha256:abc", none⟩
    rfl (by simp) rfl

/-- C6: constructing a digest-strategy selector with an empty constraint
fails (before any registry interaction: construction takes no snapshot)
with the error requiring a constraint; any non-empty constraint
succeeds. -/
theorem newDigestSelector_requires_constraint :
    ∀ (constraint : String) (platform : Option PlatformCon),
      (constraint = "" →
        newDigestSelector constraint platform =
          .error "digest selection strategy requires a constraint") ∧
      (constraint ≠ "" →
        newDigestSelector constraint platform =
          .ok ⟨constraint, platform⟩) := by
  intro c p
  constructor
  · intro h
    simp [newDigestSelector, h]
  · intro h
    simp [newDigestSelector, h]

/-- C6 witness: the empty constraint fails and a concrete non-empty
constraint succeeds. -/
theorem newDigestSelector_requires_constraint_witness :
    ("" = ("" : String) ∧
      newDigestSelector "" none =
        .error "digest selection strategy requires a constraint") ∧
    ("fake-constraint" ≠ ("" : String) ∧
      newDigestSelector "fake-constraint" none =
        .ok ⟨"fake-constraint", none⟩) :=
  ⟨⟨rfl, (newDigestSelector_requires_constraint "" none).1 rfl⟩,
    ⟨by decide,
      (newDigestSelector_requires_constraint "fake-constraint" none).2
        (by decide)⟩⟩

/-! ## Tag filter pipeline and the remaining selection strategies -/

/-- allowsTag: true when no allow-regex is configured, else true iff the
compiled expression matches the tag. The compiled expression is embedded
as its matching function. -/
def allowsTag (tag : String) : Option (String → Bool) → Bool
  | none => true
  | some rgx => rgx tag

/-- ignoresTag: true iff the tag is exactly present in the ignore list. -/
def ignoresTag (tag : String) (ignore : List String) : Bool :=
  ignore.contains tag

/-- Tag-filtering configuration bound by a selector: compiled allow-regex
and exact-match ignore list. -/
structure TagFilterCfg where
  allow : Option (String → Bool)
  ignore : List String

/-- The shared filter pipeline: keep a tag iff it is allowed and not
ignored. -/
def filterTags (cfg : TagFilterCfg) (tags : List String) : List String :=
  tags.filter (fun t => allowsTag t cfg.allow && ! ignoresTag t cfg.ignore)

/-- Modelled from the spec: the lexical strategy (implementation absent
from the excerpt) lists tags, filters them, takes the maximum tag by plain
string ordering and fetches that image filtered by platform; an empty
filtered set yields no image and no error. -/
def lexicalSelect (reg : RegistrySnapshot) (cfg : TagFilterCfg)
    (platform : Option PlatformCon) : Except String (Option Image) :=
  match reg.tags with
  | .error e => .error ("error listing tags: " ++ e)
  | .ok tags =>
    match filterTags cfg tags with
    | [] => .ok none
    | t :: ts =>
      let maxTag := ts.foldl (fun a b => if a < b then b else a) t
      match reg.imageByTag maxTag platform with
      | .error e =>
        .error ("error retrieving image with tag " ++ maxTag ++ ": " ++ e)
      | .ok img => .ok img

/-- Is image `a` strictly newer than `b`? An absent creation timestamp is
treated as older than any present one. -/
def newerThan (a b : Image) : Bool :=
  match a.createdAt, b.createdAt with
  | none, _ => false
  | some _, none => true
  | some x, some y => decide (y < x)

/-- Fetch image metadata for every tag in order; tags whose platform does
not match are skipped, a fetch error is fatal. -/
def collectImages (reg : RegistrySnapshot) (platform : Option PlatformCon) :
    List String → Except String (List Image)
  | [] => .ok []
  | t :: ts =>
    match reg.imageByTag t platform with
    | .error e =>
      .error ("error retrieving image with tag " ++ t ++ ": " ++ e)
    | .ok none => collectImages reg platform ts
    | .ok (some img) =>
      match collectImages reg platform ts with
      | .error e => .error e
      | .ok rest => .ok (img :: rest)

/-- Pick the image with the latest creation time; ties keep the first
encountered. -/
def pickNewest : List Image → Option Image
  | [] => none
  | i :: is => some (is.foldl (fun best c => if newerThan c best then c else best) i)

/-- Modelled from the spec: the newest-build strategy (implementation
absent from the excerpt) lists tags, filters them, fetches metadata for
every remaining tag and selects the latest-created image. -/
def newestBuildSelect (reg : RegistrySnapshot) (cfg : TagFilterCfg)
    (platform : Option PlatformCon) : Except String (Option Image) :=
  match reg.tags with
  | .error e => .error ("error listing tags: " ++ e)
  | .ok tags =>
    match collectImages reg platform (filterTags cfg tags) with
    | .error e => .error e
    | .ok imgs => .ok (pickNewest imgs)

/-- Modelled from the spec: the semver strategy (implementation absent
from the excerpt) lists tags, filters them, silently discards
non-semantic-version tags, applies the getLatestVersion logic for its
constraint, and fetches the winning tag's image filtered by platform. -/
def semVerSelect (reg : RegistrySnapshot) (cfg : TagFilterCfg)
    (constraint : String) (platform : Option PlatformCon) :
    Except String (Option Image) :=
  match reg.tags with
  | .error e => .error ("error listing tags: " ++ e)
  | .ok tags =>
    let parsed := (filterTags cfg tags).filterMap
      (fun t => (parseSemVer t).map (fun sv => (t, sv)))
    match constraintOutcome constraint with
    | .error e => .error e
    | .ok copt =>
      match (sortDesc parsed).find? (fun p => svSatisfiesOpt p.2 copt) with
      | none => .ok none
      | some p =>
        match reg.imageByTag p.1 platform with
        | .error e =>
          .error ("error retrieving image with tag " ++ p.1 ++ ": " ++ e)
        | .ok img => .ok img

/-- A constructed selector: the closed union of the four strategies, each
carrying its validated configuration. -/
inductive SelectorCfg where
  | digest (d : DigestSelectorCfg)
  | lexical (cfg : TagFilterCfg) (platform : Option PlatformCon)
  | newestBuild (cfg : TagFilterCfg) (platform : Option PlatformCon)
  | semver (cfg : TagFilterCfg) (constraint : String)
      (platform : Option PlatformCon)

/-- Select, with the receiver passed explicitly: the method reads its
bound configuration and the upstream snapshot and returns the (possibly
updated) receiver together with the selection outcome. None of the four
implementations writes to the receiver. -/
def selectorSelect (reg : RegistrySnapshot) :
    SelectorCfg → SelectorCfg × Except String (Option Image)
  | .digest d => (.digest d, digestSelect reg d)
  | .lexical cfg p => (.lexical cfg p, lexicalSelect reg cfg p)
  | .newestBuild cfg p => (.newestBuild cfg p, newestBuildSelect reg cfg p)
  | .semver cfg c p => (.semver cfg c p, semVerSelect reg cfg c p)

/-- C8: for every selector, invoking Select twice against an unchanged
upstream snapshot yields an identical result both times; Select leaves
the selector state untouched, so selection is a pure function of the
snapshot and the bound configuration. -/
theorem selectorSelect_idempotent (reg : RegistrySnapshot)
    (s : SelectorCfg) :
    (selectorSelect reg (selectorSelect reg s).1).2 =
      (selectorSelect reg s).2 ∧
    (selectorSelect reg s).1 = s := by
  cases s <;> simp [selectorSelect]

/-! ## Selector construction -/

/-- Split a character list into groups at each occurrence of `sep`. -/
def splitOnChar (sep : Char) : List Char → List (List Char)
  | [] => [[]]
  | c :: rest =>
    match splitOnChar sep rest with
    | [] => if c = sep then [[], []] else [[c]]
    | g :: gs => if c = sep then [] :: g :: gs else (c :: g) :: gs

/-- Modelled from the spec: parse a platform string of form
`os/arch[/variant]` into a platform constraint; any other arity of
slash-separated parts is invalid. -/
def parsePlatformCon (s : String) : Option PlatformCon :=
  match splitOnChar '/' s.data with
  | [os, arch] => some ⟨⟨os⟩, ⟨arch⟩, none⟩
  | [os, arch, variant] => some ⟨⟨os⟩, ⟨arch⟩, some ⟨variant⟩⟩
  | _ => none

/-- Are the parentheses of a pattern balanced? -/
def parensBalanced (cs : List Char) : Bool :=
  go cs 0
where
  go : List Char → Nat → Bool
    | [], 0 => true
    | [], _ + 1 => false
    | c :: rest, depth =>
      if c = '(' then go rest (depth + 1)
      else if c = ')' then
        match depth with
        | 0 => false
        | d + 1 => go rest d
      else go rest depth

/-- Modelled from the spec: regular-expression compilation is an external
collaborator; compilation succeeds exactly when the pattern's parentheses
balance (the failure mode the repository exercises, e.g. "(invalid"), and
the compiled expression is embedded as a matching function (literal
substring containment of the pattern text). -/
def compileRegexModel (s : String) : Option (String → Bool) :=
  if parensBalanced s.data then some (fun t => strContains t s) else none

/-- The configuration bag accepted by NewSelector; every field is
optional. -/
structure SelectorOptions where
  constraint : String := ""
  allowRegex : String := ""
  ignore : List String := []
  platform : String := ""

/-- The digest selection strategy name. -/
def SelectionStrategyDigest : String := "Digest"

/-- The lexical selection strategy name. -/
def SelectionStrategyLexical : String := "Lexical"

/-- The newest-build selection strategy name. -/
def SelectionStrategyNewestBuild : String := "NewestBuild"

/-- The semver selection strategy name. -/
def SelectionStrategySemVer : String := "SemVer"

/-- Step 1 of construction: validate and compile the allow-regex if
present; a compilation failure is a configuration error. -/
def compileAllowOutcome (o : SelectorOptions) :
    Except String (Option (String → Bool)) :=
  if o.allowRegex = "" then .ok none
  else
    match compileRegexModel o.allowRegex with
    | none =>
      .error ("error compiling regular expression " ++ o.allowRegex)
    | some r => .ok (some r)

/-- Step 2 of construction: parse the platform string if present; a parse
failure is a configuration error. -/
def platformOutcome (o : SelectorOptions) :
    Except String (Option PlatformCon) :=
  if o.platform = "" then .ok none
  else
    match parsePlatformCon o.platform with
    | none => .error ("error parsing platform constraint " ++ o.platform)
    | some pc => .ok (some pc)

/-- Modelled from the spec: NewSelector (implementation absent from the
excerpt; its tests appear) — validate and compile the allow-regex, parse
the platform string, then dispatch on the strategy to one of the four
constructors; an unrecognized strategy is a configuration error naming it.
A nil options value behaves as empty options. Construction consumes no
registry snapshot: it performs no network access. -/
def newSelectorWith (strategy : String) (o : SelectorOptions) :
    Except String SelectorCfg :=
  match compileAllowOutcome o with
  | .error e => .error e
  | .ok allow =>
    match platformOutcome o with
    | .error e => .error e
    | .ok platform =>
      if strategy = SelectionStrategyDigest then
        match newDigestSelector o.constraint platform with
        | .error e => .error e
        | .ok d => .ok (.digest d)
      else if strategy = SelectionStrategyLexical then
        .ok (.lexical ⟨allow, o.ignore⟩ platform)
      else if strategy = SelectionStrategyNewestBuild then
        .ok (.newestBuild ⟨allow, o.ignore⟩ platform)
      else if strategy = SelectionStrategySemVer then
        .ok (.semver ⟨allow, o.ignore⟩ o.constraint platform)
      else
        .error ("invalid image selection strategy " ++ strategy)

/-- Modelled from the spec: NewSelector defaults a nil options value to
empty options and dispatches; the repository URL is consumed only by the
registry-client construction, which is outside this embedding. -/
def NewSelector (_repoURL : String) (strategy : String)
    (opts : Option SelectorOptions) : Except String SelectorCfg :=
  newSelectorWith strategy (opts.getD {})

theorem newSelectorWith_allow_error {strategy : String}
    {o : SelectorOptions} {e : String}
    (h : compileAllowOutcome o = .error e) :
    newSelectorWith strategy o = .error e := by
  unfold newSelectorWith
  rw [h]

theorem newSelectorWith_platform_error {strategy : String}
    {o : SelectorOptions} {a : Option (String → Bool)} {e : String}
    (ha : compileAllowOutcome o = .ok a)
    (hp : platformOutcome o = .error e) :
    newSelectorWith strategy o = .error e := by
  unfold newSelectorWith
  rw [ha, hp]

theorem newSelectorWith_invalid_strategy {strategy : String}
    {o : SelectorOptions} {a : Option (String → Bool)}
    {p : Option PlatformCon}
    (ha : compileAllowOutcome o = .ok a) (hp : platformOutcome o = .ok p)
    (h1 : strategy ≠ SelectionStrategyDigest)
    (h2 : strategy ≠ SelectionStrategyLexical)
    (h3 : strategy ≠ SelectionStrategyNewestBuild)
    (h4 : strategy ≠ SelectionStrategySemVer) :
    newSelectorWith strategy o =
      .error ("invalid image selection strategy " ++ strategy) := by
  unfold newSelectorWith
  rw [ha, hp]
  simp only [if_neg h1, if_neg h2, if_neg h3, if_neg h4]

/-- C5: NewSelector fails before any registry interaction (construction
consumes no snapshot) with an error mentioning regular-expression
compilation when the allow-regex does not compile, with an error
mentioning platform-constraint parsing when the platform string does not
parse, and with an error naming the invalid strategy for any strategy
outside Digest, Lexical, NewestBuild and SemVer. -/
theorem NewSelector_config_errors :
    ∀ (repoURL strategy : String) (o : SelectorOptions),
      (o.allowRegex ≠ "" → compileRegexModel o.allowRegex = none →
        NewSelector repoURL strategy (some o) =
          .error ("error compiling regular expression " ++ o.allowRegex) ∧
        strContains
          ("error compiling regular expression " ++ o.allowRegex)
          "error compiling regular expression" = true) ∧
      ((∃ a, compileAllowOutcome o = .ok a) → o.platform ≠ "" →
        parsePlatformCon o.platform = none →
        NewSelector repoURL strategy (some o) =
          .error ("error parsing platform constraint " ++ o.platform) ∧
        strContains ("error parsing platform constraint " ++ o.platform)
          "error parsing platform constraint" = true) ∧
      (∀ a p, compileAllowOutcome o = .ok a → platformOutcome o = .ok p →
        strategy ∉ [SelectionStrategyDigest, SelectionStrategyLexical,
          SelectionStrategyNewestBuild, SelectionStrategySemVer] →
        NewSelector repoURL strategy (some o) =
          .error ("invalid image selection strategy " ++ strategy) ∧
        strContains ("invalid image selection strategy " ++ strategy)
          "invalid image selection strategy" = true) := by
  intro repoURL strategy o
  refine ⟨?_, ?_, ?_⟩
  · intro hne hrc
    have he : compileAllowOutcome o =
        .error ("error compiling regular expression " ++ o.allowRegex) := by
      unfold compileAllowOutcome
      rw [if_neg hne, hrc]
    exact ⟨newSelectorWith_allow_error he,
      strContains_lit_append _ (by decide)⟩
  · rintro ⟨a, ha⟩ hne hpc
    have he : platformOutcome o =
        .error ("error parsing platform constraint " ++ o.platform) := by
      unfold platformOutcome
      rw [if_neg hne, hpc]
    exact ⟨newSelectorWith_platform_error ha he,
      strContains_lit_append _ (by decide)⟩
  · intro a p ha hp hmem
    simp only [List.mem_cons, List.not_mem_nil, or_false, not_or] at hmem
    rcases hmem with ⟨h1, h2, h3, h4⟩
    exact ⟨newSelectorWith_invalid_strategy ha hp h1 h2 h3 h4,
      strContains_lit_append _ (by decide)⟩

/-- C5 witness: the three configuration failures on concrete inputs — the
unbalanced regex "(invalid", the slash-free platform "invalid", and the
strategy "invalid". -/
theorem NewSelector_config_errors_witness :
    (({ allowRegex := "(invalid" } : SelectorOptions).allowRegex ≠ "" ∧
      NewSelector "debian" "" (some { allowRegex := "(invalid" }) =
        .error ("error compiling regular expression " ++ "(invalid")) ∧
    (({ platform := "invalid" } : SelectorOptions).platform ≠ "" ∧
      NewSelector "debian" "" (some { platform := "invalid" }) =
        .error ("error parsing platform constraint " ++ "invalid")) ∧
    NewSelector "debian" "invalid" (some { constraint := "invalid" }) =
      .error ("invalid image selection strategy " ++ "invalid") :=
  ⟨⟨by decide,
      ((NewSelector_config_errors "debian" "" { allowRegex := "(invalid" }).1
        (by decide) rfl).1⟩,
    ⟨by decide,
      ((NewSelector_config_errors "debian" "" { platform := "invalid" }).2.1
        ⟨none, rfl⟩ (by decide) (by decide)).1⟩,
    ((NewSelector_config_errors "debian" "invalid"
        { constraint := "invalid" }).2.2 none none rfl rfl (by decide)).1⟩

/-- C9: NewSelector accepts a nil options value for the lexical,
newest-build and semver strategies: construction succeeds, yields the
selector built from empty options (no allow-regex, no ignore list, no
platform constraint, empty constraint), and agrees with passing empty
options explicitly. -/
theorem NewSelector_nil_options (repoURL : String) :
    NewSelector repoURL SelectionStrategyLexical none =
      .ok (.lexical ⟨none, []⟩ none) ∧
    NewSelector repoURL SelectionStrategyNewestBuild none =
      .ok (.newestBuild ⟨none, []⟩ none) ∧
    NewSelector repoURL SelectionStrategySemVer none =
      .ok (.semver ⟨none, []⟩ "" none) ∧
    NewSelector repoURL SelectionStrategyLexical none =
      NewSelector repoURL SelectionStrategyLexical (some {}) ∧
    NewSelector repoURL SelectionStrategyNewestBuild none =
      NewSelector repoURL SelectionStrategyNewestBuild (some {}) ∧
    NewSelector repoURL SelectionStrategySemVer none =
      NewSelector repoURL SelectionStrategySemVer (some {}) :=
  ⟨rfl, rfl, rfl, rfl, rfl, rfl⟩

/-! ## Classic chart repository resolution -/

/-- A parsed repository index: the `entries` mapping from chart names to
the ordered list of entry version strings. -/
structure RepoIndex where
  entries : List (String × List String)
deriving DecidableEq, Repr

/-- The version strings listed for a chart in an index; a chart absent
from the entries mapping has no versions. -/
def chartVersionsIn (idx : RepoIndex) (chart : String) : List String :=
  match idx.entries.lookup chart with
  | none => []
  | some vs => vs

/-- Outcome of the HTTP GET of `<repoURL>/index.yaml`, with the response
body abstracted to its YAML-unmarshalling outcome (the YAML parser is an
external collaborator): a transport failure, or a status code together
with a body that either unmarshals to an index or does not. -/
inductive IndexFetch where
  | failure (e : String)
  | resp (status : Nat) (body : Option RepoIndex)

/-- Modelled from the spec: getChartVersionsFromClassicRepo
(implementation absent from the excerpt; its tests appear) — a non-200
response is a fatal error embedding the status code; a body that does not
unmarshal is a fatal error; a chart with no entries in the index is a
fatal error naming the chart and repository; otherwise the chart's
version strings are returned exactly as listed. -/
def getChartVersionsFromClassicRepo (repoURL chart : String)
    (fetch : IndexFetch) : Except String (List String) :=
  match fetch with
  | .failure e => .error ("error fetching repository index: " ++ e)
  | .resp status body =>
    if status ≠ 200 then
      .error ("received unexpected HTTP " ++ toString status ++
        " when fetching repository index from " ++ repoURL)
    else
      match body with
      | none => .error "error unmarshaling repository index"
      | some idx =>
        match chartVersionsIn idx chart with
        | [] =>
          .error ("no versions of chart " ++ chart ++
            " found in repository index from " ++ repoURL)
        | v :: vs => .ok (v :: vs)

theorem startsWithL_refl (l : List Char) : startsWithL l l = true := by
  have h := startsWithL_append l []
  rwa [List.append_nil] at h

theorem strContains_here (n r : String) : strContains (n ++ r) n = true := by
  unfold strContains
  rw [strData_append]
  exact containsSub_of_startsWithL (startsWithL_append _ _)

theorem strContains_self (s : String) : strContains s s = true := by
  unfold strContains
  exact containsSub_of_startsWithL (startsWithL_refl _)

theorem strContains_skip (l : String) {h n : String}
    (hc : strContains h n = true) : strContains (l ++ h) n = true := by
  unfold strContains at *
  rw [strData_append]
  exact containsSub_append_left _ hc

theorem strContains_extend (r : String) {h n : String}
    (hc : strContains h n = true) : strContains (h ++ r) n = true := by
  unfold strContains at *
  rw [strData_append]
  exact containsSub_mono_right _ hc

/-- C4: a valid index in which the named chart has no entries makes
classic resolution fail with an error containing both "no versions of
chart" and "found in repository index" and naming the chart and the
repository — a hard failure, unlike the empty-result absence semantics of
a non-matching version constraint. -/
theorem classicRepo_missing_chart_error :
    ∀ (repoURL chart : String) (idx : RepoIndex),
      chartVersionsIn idx chart = [] →
      ∃ e, getChartVersionsFromClassicRepo repoURL chart
          (.resp 200 (some idx)) = .error e ∧
        strContains e "no versions of chart" = true ∧
        strContains e "found in repository index" = true ∧
        strContains e chart = true ∧
        strContains e repoURL = true := by
  intro repoURL chart idx hv
  refine ⟨"no versions of chart " ++ chart ++
    " found in repository index from " ++ repoURL, ?_, ?_, ?_, ?_, ?_⟩
  · simp [getChartVersionsFromClassicRepo, hv]
  · exact strContains_extend _ (strContains_extend _
      (strContains_extend _ (by decide)))
  · exact strContains_extend _ (strContains_skip _ (by decide))
  · exact strContains_extend _ (strContains_extend _
      (strContains_skip _ (strContains_self _)))
  · exact strContains_skip _ (strContains_self _)

/-- C4 witness: a concrete valid index without the requested chart. -/
theorem classicRepo_missing_chart_error_witness :
    chartVersionsIn ⟨[("fake-chart", ["1.0.0", "1.1.0", "1.2.0"])]⟩
      "non-existent-chart" = [] ∧
    ∃ e, getChartVersionsFromClassicRepo
        "https://chart-museum.example.com/fake-repo" "non-existent-chart"
        (.resp 200 (some ⟨[("fake-chart", ["1.0.0", "1.1.0", "1.2.0"])]⟩)) =
        .error e ∧
      strContains e "no versions of chart" = true ∧
      strContains e "found in repository index" = true ∧
      strContains e "non-existent-chart" = true ∧
      strContains e "https://chart-museum.example.com/fake-repo" = true :=
  ⟨by decide,
    classicRepo_missing_chart_error
      "https://chart-museum.example.com/fake-repo" "non-existent-chart"
      ⟨[("fake-chart", ["1.0.0", "1.1.0", "1.2.0"])]⟩ (by decide)⟩

/-- C7: successful classic resolution returns the named chart's version
strings exactly as listed in the index, in index order, with no
deduplication and no sorting; for an index with fake-chart at 1.0.0,
1.1.0, 1.2.0 it returns exactly that list. -/
theorem classicRepo_success_returns_listed :
    (∀ (repoURL chart : String) (idx : RepoIndex)
        (v : String) (vs : List String),
      chartVersionsIn idx chart = v :: vs →
      getChartVersionsFromClassicRepo repoURL chart
        (.resp 200 (some idx)) = .ok (v :: vs)) ∧
    getChartVersionsFromClassicRepo
      "https://chart-museum.example.com/fake-repo" "fake-chart"
      (.resp 200 (some ⟨[("fake-chart", ["1.0.0", "1.1.0", "1.2.0"])]⟩)) =
      .ok ["1.0.0", "1.1.0", "1.2.0"] := by
  constructor
  · intro repoURL chart idx v vs hv
    simp [getChartVersionsFromClassicRepo, hv]
  · rfl

/-- C7 witness: the general statement applied to the concrete index. -/
theorem classicRepo_success_returns_listed_witness :
    chartVersionsIn ⟨[("fake-chart", ["1.0.0", "1.1.0", "1.2.0"])]⟩
      "fake-chart" = "1.0.0" :: ["1.1.0", "1.2.0"] ∧
    getChartVersionsFromClassicRepo
      "https://chart-museum.example.com/fake-repo" "fake-chart"
      (.resp 200 (some ⟨[("fake-chart", ["1.0.0", "1.1.0", "1.2.0"])]⟩)) =
      .ok ("1.0.0" :: ["1.1.0", "1.2.0"]) :=
  ⟨by decide,
    classicRepo_success_returns_listed.1
      "https://chart-museum.example.com/fake-repo" "fake-chart"
      ⟨[("fake-chart", ["1.0.0", "1.1.0", "1.2.0"])]⟩
      "1.0.0" ["1.1.0", "1.2.0"] (by decide)⟩

/-! ## Warehouse path filters -/

/-- The recognized pattern markers ("prefix:", "glob:", "regex:",
"regexp:"). -/
def prefPathMarker : String := "prefix:"

/-- Marker selecting a glob filter. -/
def globPathMarker : String := "glob:"

/-- Marker selecting a regex filter. -/
def regexPathMarker : String := "regex:"

/-- Alternate marker selecting a regex filter. -/
def regexpPathMarker : String := "regexp:"

/-- strings.HasPrefix embedded over character lists (the builtin
String.startsWith does not evaluate inside the kernel). -/
def strHasPref (s pre : String) : Bool :=
  startsWithL s.data pre.data

/-- strings.TrimPrefix: remove the marker when present, else return the
string unchanged. -/
def trimMarker (marker s : String) : String :=
  if strHasPref s marker then ⟨s.data.drop marker.data.length⟩ else s

/-- A compiled path filter: a literal-prefix filter, or a glob/regex
filter holding its compiled matcher (possibly nil). Glob and regular
expression compilation are external collaborators, embedded as their
matching functions. -/
inductive PathFilterM where
  | pref (p : String)
  | globF (g : Option (String → Bool))
  | regexF (r : Option (String → Bool))

/-- Matches for a single filter: a prefix filter tests HasPrefix against
its whole pattern; glob/regex filters with a nil matcher match nothing,
else they apply the compiled matcher. -/
def PathFilterM.matchesF : PathFilterM → String → Bool
  | .pref p, s => strHasPref s p
  | .globF g, s =>
    match g with
    | none => false
    | some gl => gl s
  | .regexF r, s =>
    match r with
    | none => false
    | some rg => rg s

/-- pathFilters.Matches: walk the component filters and return true at
the first match; an empty filter list matches nothing. -/
def pathFiltersMatches : List PathFilterM → String → Bool
  | [], _ => false
  | f :: rest, s => f.matchesF s || pathFiltersMatches rest s

/-- newPathFilter, with glob and regex compilation passed in: dispatch on
the recognized markers, trimming the marker and compiling where needed
(compilation failures are syntax errors); any other pattern builds a
prefix filter on the whole pattern string. -/
def newPathFilter (globCompile regexCompile : String → Option (String → Bool))
    (pattern : String) : Except String PathFilterM :=
  if strHasPref pattern prefPathMarker then
    .ok (.pref (trimMarker prefPathMarker pattern))
  else if strHasPref pattern globPathMarker then
    let p := trimMarker globPathMarker pattern
    match globCompile p with
    | none => .error ("syntax error in glob pattern " ++ p)
    | some g => .ok (.globF (some g))
  else if strHasPref pattern regexPathMarker then
    let p := trimMarker regexPathMarker pattern
    match regexCompile p with
    | none => .error ("syntax error in regex pattern " ++ p)
    | some r => .ok (.regexF (some r))
  else if strHasPref pattern regexpPathMarker then
    let p := trimMarker regexpPathMarker pattern
    match regexCompile p with
    | none => .error ("syntax error in regex pattern " ++ p)
    | some r => .ok (.regexF (some r))
  else
    .ok (.pref (trimMarker prefPathMarker pattern))

theorem pathFiltersMatches_iff :
    ∀ (fs : List PathFilterM) (s : String),
      pathFiltersMatches fs s = true ↔ ∃ f ∈ fs, f.matchesF s = true
  | [], s => by simp [pathFiltersMatches]
  | f :: rest, s => by
    simp only [pathFiltersMatches, Bool.or_eq_true,
      pathFiltersMatches_iff rest s]
    constructor
    · rintro (h | ⟨g, hg, hm⟩)
      · exact ⟨f, List.mem_cons_self _ _, h⟩
      · exact ⟨g, List.mem_cons_of_mem _ hg, hm⟩
    · rintro ⟨g, hg, hm⟩
      rcases List.mem_cons.mp hg with rfl | hg
      · exact Or.inl hm
      · exact Or.inr ⟨g, hg, hm⟩

/-- C10: pathFilters.Matches is true exactly when some component filter
matches (so the empty filter list matches no path), and newPathFilter
turns any pattern lacking a recognized "prefix:", "glob:", "regex:" or
"regexp:" marker into a prefix filter matching exactly the paths that
begin with the whole pattern string. -/
theorem pathFilter_characterization :
    (∀ (fs : List PathFilterM) (s : String),
      pathFiltersMatches fs s = true ↔ ∃ f ∈ fs, f.matchesF s = true) ∧
    (∀ s, pathFiltersMatches [] s = false) ∧
    (∀ (globCompile regexCompile : String → Option (String → Bool))
        (pattern : String),
      strHasPref pattern prefPathMarker = false →
      strHasPref pattern globPathMarker = false →
      strHasPref pattern regexPathMarker = false →
      strHasPref pattern regexpPathMarker = false →
      newPathFilter globCompile regexCompile pattern =
        .ok (.pref pattern) ∧
      ∀ s, (PathFilterM.pref pattern).matchesF s = strHasPref s pattern) := by
  refine ⟨pathFiltersMatches_iff, fun s => rfl, ?_⟩
  intro globCompile regexCompile pattern h1 h2 h3 h4
  have htrim : trimMarker prefPathMarker pattern = pattern := by
    unfold trimMarker
    rw [h1]
    simp
  constructor
  · unfold newPathFilter
    rw [h1, h2, h3, h4]
    simp [htrim]
  · intro s
    rfl

/-- C10 witness: a markerless pattern becomes a prefix filter; it matches
a path with that prefix and not another. -/
theorem pathFilter_characterization_witness :
    (strHasPref "src/" prefPathMarker = false ∧
      newPathFilter (fun _ => none) (fun _ => none) "src/" =
        .ok (.pref "src/")) ∧
    pathFiltersMatches [] "src/main.go" = false ∧
    (PathFilterM.pref "src/").matchesF "src/main.go" = true ∧
    (PathFilterM.pref "src/").matchesF "docs/main.go" = false :=
  ⟨⟨by decide,
      (pathFilter_characterization.2.2 (fun _ => none) (fun _ => none)
        "src/" (by decide) (by decide) (by decide) (by decide)).1⟩,
    pathFilter_characterization.2.1 "src/main.go",
    by decide, by decide⟩
